import Mathlib

/-!
Verification of the DBF-to-CSV converter (`src/utils/dbf.ts`).

The converter is a pure, synchronous transformation from a raw byte buffer
to a CSV document plus summary statistics.  We embed it shallowly: the
buffer is a `List Nat` of byte values (every read reduces the stored value
`% 256`, mirroring the fact that an `ArrayBuffer` cell is a byte), strings
are `List Char`, and fallible operations return `Except DbfError`.  JS
`DataView`/`Uint8Array` accesses throw a `RangeError` when out of bounds;
we model that with the dedicated `DbfError.rangeError` constructor, kept
distinct from the six descriptive errors the function itself throws.
-/

namespace Dbf

/-- The failure modes of `convertDbfToCsv`: the six descriptive errors the
function throws itself, plus `rangeError`, modelling the `RangeError` a JS
`DataView` read or `Uint8Array` construction throws when out of bounds. -/
inductive DbfError where
  | bufferTooSmall
  | malformedHeader
  | headerLargerThanFile
  | noFields
  | payloadTruncated
  | recordExtendsBeyond
  | rangeError
deriving DecidableEq, Repr

/-- `DbfFieldMeta` from the source: one parsed field descriptor. -/
structure DbfFieldMeta where
  name : List Char
  type : Char
  length : Nat
  decimalCount : Nat
deriving DecidableEq, Repr

/-- `DbfCsvResult` from the source: the CSV text plus summary statistics. -/
structure DbfCsvResult where
  csv : List Char
  recordCount : Nat
  parsedRecords : Nat
  headerLength : Nat
  recordLength : Nat
  fields : List DbfFieldMeta
deriving DecidableEq, Repr

/-- The byte stored at index `i` (0 when out of range; used only where the
source access is known to be in bounds). `% 256` reflects that an
`ArrayBuffer` cell holds a byte. -/
def byteAt (buf : List Nat) (i : Nat) : Nat := buf.getD i 0 % 256

/-- `view.getUint8(i)`: throws a `RangeError` out of bounds. -/
def readU8 (buf : List Nat) (i : Nat) : Except DbfError Nat :=
  if i < buf.length then .ok (byteAt buf i) else .error .rangeError

/-- The bytes of `new Uint8Array(buffer, off, len)`, ignoring bounds. -/
def sliceD (buf : List Nat) (off len : Nat) : List Nat :=
  ((buf.drop off).take len).map (· % 256)

/-- `new Uint8Array(buffer, off, len)`: throws a `RangeError` when the
window does not fit inside the buffer. -/
def sliceB (buf : List Nat) (off len : Nat) : Except DbfError (List Nat) :=
  if off + len ≤ buf.length then .ok (sliceD buf off len) else .error .rangeError

/-- `view.getUint16(i, true)` (little endian).  Used in `convertDbfToCsv`
only at offsets 8 and 10 after the `byteLength ≥ 32` check, where the read
cannot throw, so it is modelled as a total function. -/
def u16le (buf : List Nat) (i : Nat) : Nat :=
  byteAt buf i + 256 * byteAt buf (i + 1)

/-- `view.getUint32(i, true)` (little endian).  Used only at offset 4 after
the `byteLength ≥ 32` check, where the read cannot throw. -/
def u32le (buf : List Nat) (i : Nat) : Nat :=
  byteAt buf i + 256 * byteAt buf (i + 1) + 65536 * byteAt buf (i + 2) +
    16777216 * byteAt buf (i + 3)

/-- The WHATWG decoder for the label `"ascii"` (`new TextDecoder("ascii")`)
is the windows-1252 decoder: bytes below 0x80 and from 0xA0 up decode as
their own code point, bytes 0x80–0x9F through the windows-1252 table. -/
def win1252 (b : Nat) : Char :=
  match b with
  | 0x80 => Char.ofNat 0x20AC
  | 0x82 => Char.ofNat 0x201A
  | 0x83 => Char.ofNat 0x0192
  | 0x84 => Char.ofNat 0x201E
  | 0x85 => Char.ofNat 0x2026
  | 0x86 => Char.ofNat 0x2020
  | 0x87 => Char.ofNat 0x2021
  | 0x88 => Char.ofNat 0x02C6
  | 0x89 => Char.ofNat 0x2030
  | 0x8A => Char.ofNat 0x0160
  | 0x8B => Char.ofNat 0x2039
  | 0x8C => Char.ofNat 0x0152
  | 0x8E => Char.ofNat 0x017D
  | 0x91 => Char.ofNat 0x2018
  | 0x92 => Char.ofNat 0x2019
  | 0x93 => Char.ofNat 0x201C
  | 0x94 => Char.ofNat 0x201D
  | 0x95 => Char.ofNat 0x2022
  | 0x96 => Char.ofNat 0x2013
  | 0x97 => Char.ofNat 0x2014
  | 0x98 => Char.ofNat 0x02DC
  | 0x99 => Char.ofNat 0x2122
  | 0x9A => Char.ofNat 0x0161
  | 0x9B => Char.ofNat 0x203A
  | 0x9C => Char.ofNat 0x0153
  | 0x9E => Char.ofNat 0x017E
  | 0x9F => Char.ofNat 0x0178
  | _ => Char.ofNat b

/-- The characters removed by JS `String.prototype.trim`: ECMAScript
WhiteSpace and LineTerminator code points. -/
def jsWhitespace (c : Char) : Bool :=
  c.toNat = 9 || c.toNat = 10 || c.toNat = 11 || c.toNat = 12 || c.toNat = 13 ||
  c.toNat = 32 || c.toNat = 160 || c.toNat = 0x1680 ||
  (0x2000 ≤ c.toNat && c.toNat ≤ 0x200A) ||
  c.toNat = 0x2028 || c.toNat = 0x2029 || c.toNat = 0x202F ||
  c.toNat = 0x205F || c.toNat = 0x3000 || c.toNat = 0xFEFF

/-- `s.trim()`: drop leading and trailing JS whitespace. -/
def jsTrim (l : List Char) : List Char :=
  ((l.dropWhile jsWhitespace).reverse.dropWhile jsWhitespace).reverse

/-- `sanitizeText`: decode the bytes as `TextDecoder("ascii")` does, strip
null characters (`replace(/\u0000/g, "")`), and trim. -/
def sanitizeText (bytes : List Nat) : List Char :=
  jsTrim ((bytes.map (fun b => win1252 (b % 256))).filter (fun c => c.toNat ≠ 0))

/-- The `needsWrapper` condition of `escapeCsv`: the value contains a
comma, a double quote, or a newline character (LF or CR). -/
def needsWrapper (v : List Char) : Bool :=
  v.contains ',' || v.contains '"' || v.contains '\n' || v.contains '\r'

/-- `value.replace(/"/g, '""')`: double every double-quote character. -/
def doubleQuotes (v : List Char) : List Char :=
  v.flatMap (fun c => if c = '"' then ['"', '"'] else [c])

/-- `escapeCsv` from the source. -/
def escapeCsv (v : List Char) : List Char :=
  let escaped := doubleQuotes v
  if needsWrapper v then '"' :: (escaped ++ ['"']) else escaped

/-- `arr.join(sep)` on a list of strings. -/
def joinSep (sep : List Char) : List (List Char) → List Char
  | [] => []
  | [x] => x
  | x :: y :: xs => x ++ sep ++ joinSep sep (y :: xs)

/-- `cells.join(",")`. -/
def joinComma (cells : List (List Char)) : List Char := joinSep [','] cells

/-- `rows.join("\r\n")`. -/
def joinCRLF (rows : List (List Char)) : List Char := joinSep ['\r', '\n'] rows

/-- The synthetic placeholder name for a descriptor whose stored name
sanitizes to empty. -/
def fieldPlaceholder (n : Nat) : List Char :=
  "FIELD_".toList ++ Nat.toDigits 10 n

/-- The descriptor-table loop of `convertDbfToCsv`: while the offset is
below the header length, read a 32-byte descriptor entry, stopping at a
0x0D marker, accumulating parsed fields in order.  The first argument
counts the remaining loop steps; the loop advances the offset by 32 each
iteration, so any step budget of at least `headerLength - off` suffices
and the 0-steps case is unreachable from `parseFields` (see
`parseFieldsFrom_steps_irrelevant`). -/
def parseFieldsFrom (buf : List Nat) (headerLength : Nat) :
    Nat → Nat → List DbfFieldMeta → Except DbfError (List DbfFieldMeta)
  | 0, _, acc => .ok acc
  | steps + 1, off, acc =>
    if off < headerLength then
      match readU8 buf off with
      | .error e => .error e
      | .ok marker =>
        if marker = 0x0d then .ok acc
        else
          match sliceB buf off 11 with
          | .error e => .error e
          | .ok nameBytes =>
            let sname := sanitizeText nameBytes
            let name := if sname = [] then fieldPlaceholder (acc.length + 1) else sname
            match readU8 buf (off + 11) with
            | .error e => .error e
            | .ok ty =>
              match readU8 buf (off + 16) with
              | .error e => .error e
              | .ok len =>
                match readU8 buf (off + 17) with
                | .error e => .error e
                | .ok dec =>
                  parseFieldsFrom buf headerLength steps (off + 32)
                    (acc ++ [⟨name, Char.ofNat ty, len, dec⟩])
    else .ok acc

/-- The descriptor-table loop, with a step budget (`headerLength`) large
enough never to run out. -/
def parseFields (buf : List Nat) (headerLength : Nat) (off : Nat)
    (acc : List DbfFieldMeta) : Except DbfError (List DbfFieldMeta) :=
  parseFieldsFrom buf headerLength headerLength off acc

/-- The per-record field loop: walk the descriptors, each consuming
`field.length` bytes from the cursor; a field whose span would exceed the
buffer aborts with the extends-beyond error.  Returns the escaped cells. -/
def decodeRecord (buf : List Nat) (fields : List DbfFieldMeta) (fieldOffset : Nat) :
    Except DbfError (List (List Char)) :=
  match fields with
  | [] => .ok []
  | f :: rest =>
    if fieldOffset + f.length > buf.length then .error .recordExtendsBeyond
    else
      match sliceB buf fieldOffset f.length with
      | .error e => .error e
      | .ok bytes =>
        match decodeRecord buf rest (fieldOffset + f.length) with
        | .error e => .error e
        | .ok cells => .ok (escapeCsv (sanitizeText bytes) :: cells)

/-- The record-scan loop of `convertDbfToCsv`, driven by the number of
remaining declared indices (second argument): for each index, stop
silently if the record's full span passes the buffer end, skip records
whose deletion flag is 0x2A, otherwise decode and emit a row.  Returns the
data rows (each already comma-joined) and the parsed-record count. -/
def scanRecords (buf : List Nat) (fields : List DbfFieldMeta)
    (dataStart recordLength : Nat) : Nat → Nat → Except DbfError (List (List Char) × Nat)
  | _, 0 => .ok ([], 0)
  | rowIndex, Nat.succ k =>
    let recordOffset := dataStart + rowIndex * recordLength
    if recordOffset + recordLength > buf.length then .ok ([], 0)
    else
      match readU8 buf recordOffset with
      | .error e => .error e
      | .ok flag =>
        if flag = 0x2a then scanRecords buf fields dataStart recordLength (rowIndex + 1) k
        else
          match decodeRecord buf fields (recordOffset + 1) with
          | .error e => .error e
          | .ok cells =>
            match scanRecords buf fields dataStart recordLength (rowIndex + 1) k with
            | .error e => .error e
            | .ok (rows, parsed) => .ok (joinComma cells :: rows, parsed + 1)

/-- `convertDbfToCsv` from the source.  The source binds
`recordCount := getUint32(4)`, `headerLength := getUint16(8)`,
`recordLength := getUint16(10)` once; they are inlined here.  These three
reads happen after the 32-byte check, so they are in bounds and use the
total `u16le`/`u32le`. -/
def convertDbfToCsv (buf : List Nat) : Except DbfError DbfCsvResult :=
  if buf.length < 32 then .error .bufferTooSmall
  else if u16le buf 8 = 0 ∨ u16le buf 10 = 0 then .error .malformedHeader
  else if u16le buf 8 > buf.length then .error .headerLargerThanFile
  else
    match parseFields buf (u16le buf 8) 32 [] with
    | .error e => .error e
    | .ok fields =>
      if fields = [] then .error .noFields
      else if u16le buf 8 + u16le buf 10 > buf.length then .error .payloadTruncated
      else
        match scanRecords buf fields (u16le buf 8) (u16le buf 10) 0 (u32le buf 4) with
        | .error e => .error e
        | .ok (dataRows, parsedRecords) =>
          .ok { csv := joinCRLF (joinComma (fields.map (fun f => escapeCsv f.name)) :: dataRows),
                recordCount := u32le buf 4,
                parsedRecords := parsedRecords,
                headerLength := u16le buf 8,
                recordLength := u16le buf 10,
                fields := fields }

/-! ### Observation functions used to state the claims

These are not part of the source; they name quantities the specification
talks about (which declared record indices fit in the buffer, which are
flagged deleted, the raw cell values of a record) in terms of the embedded
buffer. -/

/-- Declared record `j` fits: its full `recordLength` span lies inside the
buffer (`recordOffset + recordLength <= byteLength` in the source). -/
def fitsB (buf : List Nat) (dataStart recordLength j : Nat) : Bool :=
  decide (dataStart + j * recordLength + recordLength ≤ buf.length)

/-- The deletion-flag byte of declared record `j`. -/
def flagAt (buf : List Nat) (dataStart recordLength j : Nat) : Nat :=
  byteAt buf (dataStart + j * recordLength)

/-- Sum of the declared field lengths. -/
def sumLen (fields : List DbfFieldMeta) : Nat :=
  (fields.map (fun f => f.length)).sum

/-- The declared record indices that yield an output row: in bounds and
not flagged deleted (0x2A). -/
def liveIdx (buf : List Nat) (dataStart recordLength n : Nat) : List Nat :=
  (List.range n).filter
    (fun j => fitsB buf dataStart recordLength j && (flagAt buf dataStart recordLength j != 0x2a))

/-- How many in-bounds declared records are flagged deleted. -/
def deletedCount (buf : List Nat) (dataStart recordLength n : Nat) : Nat :=
  ((List.range n).filter
    (fun j => fitsB buf dataStart recordLength j && (flagAt buf dataStart recordLength j == 0x2a))).length

/-- How many declared record indices are skipped because their full span
would exceed the buffer. -/
def skippedCount (buf : List Nat) (dataStart recordLength n : Nat) : Nat :=
  ((List.range n).filter (fun j => ! fitsB buf dataStart recordLength j)).length

/-- The raw (sanitized, unescaped) cell values of a record whose field
data starts at `off`. -/
def rawCells (buf : List Nat) (fields : List DbfFieldMeta) (off : Nat) : List (List Char) :=
  match fields with
  | [] => []
  | f :: rest => sanitizeText (sliceD buf off f.length) :: rawCells buf rest (off + f.length)

/-- The CSV row emitted for declared record `j`. -/
def rowAt (buf : List Nat) (fields : List DbfFieldMeta) (dataStart recordLength j : Nat) :
    List Char :=
  joinComma ((rawCells buf fields (dataStart + j * recordLength + 1)).map escapeCsv)

/-! ### An RFC-4180 reader, used to state the round-trip claim

The reader follows the specification wording: cells are separated by
commas, rows by CRLF (taken strictly as a separator), a cell beginning
with a double quote extends to the matching closing quote with doubled
quotes read as one literal quote, and any other cell extends to the next
comma or CR/LF.  Each function carries the length bound needed for
termination. -/

/-- A character that ends an unquoted cell. -/
def notDelim (c : Char) : Bool :=
  !(c = ',' || c = '\r' || c = '\n')

/-- Read the body of a quoted cell (the opening quote already consumed):
returns the cell text and the input after the closing quote. -/
def parseQuoted : (s : List Char) → { p : List Char × List Char // p.2.length ≤ s.length }
  | [] => ⟨([], []), le_rfl⟩
  | c :: rest =>
    if c = '"' then
      match rest with
      | [] => ⟨([], []), by simp⟩
      | c2 :: rest2 =>
        if c2 = '"' then
          let r := parseQuoted rest2
          ⟨('"' :: r.val.1, r.val.2), by have := r.property; simp; omega⟩
        else ⟨([], c2 :: rest2), by simp⟩
    else
      let r := parseQuoted rest
      ⟨(c :: r.val.1, r.val.2), by have := r.property; simp; omega⟩

/-- Read one cell: quoted if it starts with a double quote, otherwise up
to the next delimiter. -/
def parseCell (s : List Char) : { p : List Char × List Char // p.2.length ≤ s.length } :=
  match s with
  | [] => ⟨([], []), le_rfl⟩
  | c :: rest =>
    if c = '"' then
      let r := parseQuoted rest
      ⟨r.val, by have := r.property; simp; omega⟩
    else
      ⟨((c :: rest).takeWhile notDelim, (c :: rest).dropWhile notDelim), by
        have := (List.dropWhile_sublist (l := c :: rest) (p := notDelim)).length_le
        simpa using this⟩

/-- Read one row: cells separated by commas, ended by CRLF (flag `true`),
or by the end of the input or a stray character (flag `false`). -/
def parseRow (s : List Char) :
    { t : List (List Char) × List Char × Bool //
      t.2.1.length ≤ s.length ∧ (t.2.2 = true → t.2.1.length < s.length) } :=
  let r := parseCell s
  match h : r.val.2 with
  | [] => ⟨([r.val.1], [], false), by
      refine ⟨by simp, fun hb => by cases hb⟩⟩
  | c :: r2 =>
    if c = ',' then
      let res := parseRow r2
      ⟨(r.val.1 :: res.val.1, res.val.2.1, res.val.2.2), by
        have hp := r.property
        rw [h] at hp
        simp only [List.length_cons] at hp
        have hq := res.property
        refine ⟨?_, fun hb => ?_⟩
        · show res.val.2.1.length ≤ s.length
          have h1 := hq.1
          omega
        · show res.val.2.1.length < s.length
          have h1 := hq.1
          omega⟩
    else if c = '\r' then
      match r2 with
      | [] => ⟨([r.val.1], [c], false), by
          have hp := r.property
          rw [h] at hp
          refine ⟨?_, fun hb => by cases hb⟩
          show [c].length ≤ s.length
          exact hp⟩
      | c2 :: r3 =>
        if c2 = '\n' then
          ⟨([r.val.1], r3, true), by
            have hp := r.property
            rw [h] at hp
            simp only [List.length_cons] at hp
            refine ⟨?_, fun _ => ?_⟩
            · show r3.length ≤ s.length
              omega
            · show r3.length < s.length
              omega⟩
        else ⟨([r.val.1], c :: c2 :: r3, false), by
          have hp := r.property
          rw [h] at hp
          refine ⟨?_, fun hb => by cases hb⟩
          show (c :: c2 :: r3).length ≤ s.length
          exact hp⟩
    else ⟨([r.val.1], c :: r2, false), by
      have hp := r.property
      rw [h] at hp
      refine ⟨?_, fun hb => by cases hb⟩
      show (c :: r2).length ≤ s.length
      exact hp⟩
  termination_by s.length
  decreasing_by
    simp_wf
    have hp := r.property
    rw [h] at hp
    simp only [List.length_cons] at hp
    omega

/-- Read a whole document: rows separated by CRLF taken strictly as a
separator (so a trailing CRLF introduces a final empty row). -/
def parseRows (s : List Char) : List (List (List Char)) :=
  let res := parseRow s
  if hb : res.val.2.2 = true then res.val.1 :: parseRows res.val.2.1 else [res.val.1]
  termination_by s.length
  decreasing_by
    simp_wf
    exact (parseRow s).property.2 hb

/-- Equality of `Except` results is decidable componentwise; needed to
settle concrete conversions by `decide`. -/
instance {ε α : Type} [DecidableEq ε] [DecidableEq α] : DecidableEq (Except ε α) := by
  intro a b
  cases a <;> cases b <;>
    first
    | exact isFalse (fun hc => Except.noConfusion hc)
    | exact decidable_of_iff _ (by constructor <;> (intro h; first | exact congrArg _ h | (injection h)))

/-! ### Concrete input buffers -/

/-- The minimal synthetic buffer of the spec: 32-byte preamble (record
count 1, header length 65, record length 11), one descriptor (name
`"NAME"`, type `C`, length 10), the 0x0D terminator, one 11-byte record
(flag 0x20, bytes `"HELLO     "`). -/
def dbf76 : List Nat :=
  [0, 0, 0, 0, 1, 0, 0, 0, 65, 0, 11, 0] ++ List.replicate 20 0 ++
  ([78, 65, 77, 69] ++ List.replicate 7 0) ++ [67, 0, 0, 0, 0, 10, 0] ++ List.replicate 14 0 ++
  [13] ++
  [32, 72, 69, 76, 76, 79, 32, 32, 32, 32, 32]

/-- Like `dbf76`, but with one field of declared length 20 (so the
cumulative per-record cursor 1 + 20 exceeds `recordLength - 1 = 10`) and
ten padding bytes after the record, so every field read stays inside the
buffer. -/
def c1buf : List Nat :=
  [0, 0, 0, 0, 1, 0, 0, 0, 65, 0, 11, 0] ++ List.replicate 20 0 ++
  ([65] ++ List.replicate 10 0) ++ [67, 0, 0, 0, 0, 20, 0] ++ List.replicate 14 0 ++
  [13] ++
  [32, 72, 69, 76, 76, 79, 87, 79, 82, 76, 68] ++ List.replicate 10 0

/-- The expected successful result of `convertDbfToCsv c1buf`. -/
def c1expected : DbfCsvResult :=
  { csv := "A\r\nHELLOWORLD".toList, recordCount := 1, parsedRecords := 1,
    headerLength := 65, recordLength := 11,
    fields := [{ name := ['A'], type := 'C', length := 20, decimalCount := 0 }] }

/-- A 40-byte buffer with header length 40: the descriptor entry at offset
32 starts before the header-length boundary, but its 11-byte name window
extends past the end of the buffer. -/
def c2buf : List Nat :=
  [0, 0, 0, 0, 0, 0, 0, 0, 40, 0, 1, 0] ++ List.replicate 20 0 ++
  [65, 0, 0, 0, 0, 0, 0, 0]

/-- Declared record count 2 with only one 11-byte record present (so the
declared record at index 1 is truncated), and one field of declared
length 30, so record 0's field cursor overruns the buffer. -/
def c7buf : List Nat :=
  [0, 0, 0, 0, 2, 0, 0, 0, 65, 0, 11, 0] ++ List.replicate 20 0 ++
  ([65] ++ List.replicate 10 0) ++ [67, 0, 0, 0, 0, 30, 0] ++ List.replicate 14 0 ++
  [13] ++
  [32, 72, 69, 76, 76, 79, 32, 32, 32, 32, 32]

/-- Like `dbf76`, but with declared record count 2 and only one record
present: the trailing declared record is truncated and skipped. -/
def dbf76b : List Nat :=
  [0, 0, 0, 0, 2, 0, 0, 0, 65, 0, 11, 0] ++ List.replicate 20 0 ++
  ([78, 65, 77, 69] ++ List.replicate 7 0) ++ [67, 0, 0, 0, 0, 10, 0] ++ List.replicate 14 0 ++
  [13] ++
  [32, 72, 69, 76, 76, 79, 32, 32, 32, 32, 32]

/-- A 65-byte buffer that is exactly a valid header (header length 65,
record length 11, declared record count 0) with no room for any record. -/
def dbf65 : List Nat :=
  [0, 0, 0, 0, 0, 0, 0, 0, 65, 0, 11, 0] ++ List.replicate 20 0 ++
  ([78, 65, 77, 69] ++ List.replicate 7 0) ++ [67, 0, 0, 0, 0, 10, 0] ++ List.replicate 14 0 ++
  [13]

/-- Like `dbf76`, but the descriptor's 11 name bytes are all null, so the
name sanitizes to empty and the placeholder `FIELD_1` is used. -/
def dbf76c : List Nat :=
  [0, 0, 0, 0, 1, 0, 0, 0, 65, 0, 11, 0] ++ List.replicate 20 0 ++
  (List.replicate 11 0) ++ [67, 0, 0, 0, 0, 10, 0] ++ List.replicate 14 0 ++
  [13] ++
  [32, 72, 69, 76, 76, 79, 32, 32, 32, 32, 32]

/-- The expected result of converting `dbf76`. -/
def dbf76Expected : DbfCsvResult :=
  { csv := "NAME\r\nHELLO".toList, recordCount := 1, parsedRecords := 1,
    headerLength := 65, recordLength := 11,
    fields := [{ name := "NAME".toList, type := 'C', length := 10, decimalCount := 0 }] }

/-- The expected result of converting `dbf76b` (trailing declared record
truncated and skipped). -/
def dbf76bExpected : DbfCsvResult :=
  { csv := "NAME\r\nHELLO".toList, recordCount := 2, parsedRecords := 1,
    headerLength := 65, recordLength := 11,
    fields := [{ name := "NAME".toList, type := 'C', length := 10, decimalCount := 0 }] }

/-- The expected result of converting `dbf76c` (empty stored name). -/
def dbf76cExpected : DbfCsvResult :=
  { csv := "FIELD_1\r\nHELLO".toList, recordCount := 1, parsedRecords := 1,
    headerLength := 65, recordLength := 11,
    fields := [{ name := "FIELD_1".toList, type := 'C', length := 10, decimalCount := 0 }] }

/-- Two declared records, the first flagged deleted (0x2A), the second
live with value `"WORLD     "`. -/
def dbfDel : List Nat :=
  [0, 0, 0, 0, 2, 0, 0, 0, 65, 0, 11, 0] ++ List.replicate 20 0 ++
  ([78, 65, 77, 69] ++ List.replicate 7 0) ++ [67, 0, 0, 0, 0, 10, 0] ++ List.replicate 14 0 ++
  [13] ++
  [42, 72, 69, 76, 76, 79, 32, 32, 32, 32, 32] ++
  [32, 87, 79, 82, 76, 68, 32, 32, 32, 32, 32]

/-- The expected result of converting `dbfDel` (deleted record dropped). -/
def dbfDelExpected : DbfCsvResult :=
  { csv := "NAME\r\nWORLD".toList, recordCount := 2, parsedRecords := 1,
    headerLength := 65, recordLength := 11,
    fields := [{ name := "NAME".toList, type := 'C', length := 10, decimalCount := 0 }] }

/-! ### Theorems -/

/-- Any step budget of at least `headerLength - off` gives the same result:
the explicit counter is an artefact of the embedding, not of the loop. -/
theorem parseFieldsFrom_steps_irrelevant (buf : List Nat) (headerLength : Nat) :
    ∀ s t off acc, headerLength - off ≤ s → headerLength - off ≤ t →
      parseFieldsFrom buf headerLength s off acc = parseFieldsFrom buf headerLength t off acc := by
  intro s
  induction s with
  | zero =>
    intro t off acc hs _
    have hoff : ¬ off < headerLength := by omega
    cases t with
    | zero => rfl
    | succ t => simp [parseFieldsFrom, hoff]
  | succ s ih =>
    intro t off acc hs ht
    cases t with
    | zero =>
      have hoff : ¬ off < headerLength := by omega
      simp [parseFieldsFrom, hoff]
    | succ t =>
      by_cases hoff : off < headerLength
      · simp only [parseFieldsFrom, hoff, if_true]
        cases readU8 buf off with
        | error e => rfl
        | ok marker =>
          by_cases hm : marker = 0x0d
          · simp [hm]
          · simp only [hm, if_false]
            cases sliceB buf off 11 with
            | error e => rfl
            | ok nameBytes =>
              cases readU8 buf (off + 11) with
              | error e => rfl
              | ok ty =>
                cases readU8 buf (off + 16) with
                | error e => rfl
                | ok len =>
                  cases readU8 buf (off + 17) with
                  | error e => rfl
                  | ok dec => exact ih t (off + 32) _ (by omega) (by omega)
      · simp [parseFieldsFrom, hoff]

/-! ### Reads and slices -/

lemma readU8_ok {buf : List Nat} {i : Nat} (h : i < buf.length) :
    readU8 buf i = .ok (byteAt buf i) := by
  simp [readU8, h]

lemma sliceB_ok {buf : List Nat} {off len : Nat} (h : off + len ≤ buf.length) :
    sliceB buf off len = .ok (sliceD buf off len) := by
  simp [sliceB, h]

lemma sumLen_cons (f : DbfFieldMeta) (rest : List DbfFieldMeta) :
    sumLen (f :: rest) = f.length + sumLen rest := by
  simp [sumLen]

lemma rawCells_length (buf : List Nat) :
    ∀ (fields : List DbfFieldMeta) (off : Nat),
      (rawCells buf fields off).length = fields.length := by
  intro fields
  induction fields with
  | nil => intro off; simp [rawCells]
  | cons f rest ih => intro off; simp [rawCells, ih]

/-! ### The per-record field loop -/

lemma decodeRecord_ok_cells {buf : List Nat} :
    ∀ (fields : List DbfFieldMeta) (off : Nat) (cells : List (List Char)),
      decodeRecord buf fields off = .ok cells →
      cells = (rawCells buf fields off).map escapeCsv := by
  intro fields
  induction fields with
  | nil =>
    intro off cells h
    simp only [decodeRecord, Except.ok.injEq] at h
    simp [rawCells, ← h]
  | cons f rest ih =>
    intro off cells h
    simp only [decodeRecord] at h
    split at h
    · cases h
    next hle =>
      simp only [sliceB_ok (by omega : off + f.length ≤ buf.length)] at h
      cases hrec : decodeRecord buf rest (off + f.length) with
      | error e => simp only [hrec] at h; cases h
      | ok cells2 =>
        simp only [hrec, Except.ok.injEq] at h
        rw [← h, rawCells, List.map_cons, ih _ _ hrec]

lemma decodeRecord_ok_of_le {buf : List Nat} :
    ∀ (fields : List DbfFieldMeta) (off : Nat),
      off + sumLen fields ≤ buf.length →
      decodeRecord buf fields off = .ok ((rawCells buf fields off).map escapeCsv) := by
  intro fields
  induction fields with
  | nil => intro off _; simp [decodeRecord, rawCells]
  | cons f rest ih =>
    intro off h
    rw [sumLen_cons] at h
    have h1 : ¬ (off + f.length > buf.length) := by omega
    simp only [decodeRecord, if_neg h1, sliceB_ok (by omega : off + f.length ≤ buf.length),
      ih (off + f.length) (by omega)]
    simp [rawCells]

lemma decodeRecord_error_of_gt {buf : List Nat} :
    ∀ (fields : List DbfFieldMeta) (off : Nat),
      fields ≠ [] → buf.length < off + sumLen fields →
      decodeRecord buf fields off = .error .recordExtendsBeyond := by
  intro fields
  induction fields with
  | nil => intro off hne _; exact absurd rfl hne
  | cons f rest ih =>
    intro off _ hgt
    rw [sumLen_cons] at hgt
    by_cases h1 : off + f.length > buf.length
    · simp [decodeRecord, if_pos h1]
    · have hrest : rest ≠ [] := by
        intro hr
        rw [hr] at hgt
        simp [sumLen] at hgt
        omega
      have hgt2 : buf.length < (off + f.length) + sumLen rest := by omega
      simp only [decodeRecord, if_neg h1,
        sliceB_ok (by omega : off + f.length ≤ buf.length), ih (off + f.length) hrest hgt2]

lemma decodeRecord_error_eq {buf : List Nat} :
    ∀ (fields : List DbfFieldMeta) (off : Nat) (e : DbfError),
      decodeRecord buf fields off = .error e → e = .recordExtendsBeyond := by
  intro fields
  induction fields with
  | nil => intro off e h; cases h
  | cons f rest ih =>
    intro off e h
    simp only [decodeRecord] at h
    split at h
    · cases h; rfl
    next hle =>
      simp only [sliceB_ok (by omega : off + f.length ≤ buf.length)] at h
      cases hrec : decodeRecord buf rest (off + f.length) with
      | error e2 =>
        simp only [hrec, Except.error.injEq] at h
        rw [← h]
        exact ih _ _ hrec
      | ok cells2 => simp only [hrec] at h; cases h

/-! ### The record scan -/

lemma fitsB_true_iff {buf : List Nat} {ds rl j : Nat} :
    fitsB buf ds rl j = true ↔ ds + j * rl + rl ≤ buf.length := by
  simp [fitsB]

lemma fitsB_mono {buf : List Nat} {ds rl : Nat} {i j : Nat} (hij : i ≤ j)
    (hj : fitsB buf ds rl j = true) : fitsB buf ds rl i = true := by
  rw [fitsB_true_iff] at *
  have := Nat.mul_le_mul_right rl hij
  omega

lemma scanRecords_ok_spec {buf : List Nat} {fields : List DbfFieldMeta} {ds rl : Nat}
    (hrl : 1 ≤ rl) :
    ∀ (k i : Nat) (rows : List (List Char)) (parsed : Nat),
      scanRecords buf fields ds rl i k = .ok (rows, parsed) →
      rows = ((List.range' i k).filter
          (fun j => fitsB buf ds rl j && (flagAt buf ds rl j != 0x2a))).map
          (fun j => rowAt buf fields ds rl j) ∧
      parsed = rows.length := by
  intro k
  induction k with
  | zero =>
    intro i rows parsed h
    simp only [scanRecords, Except.ok.injEq, Prod.mk.injEq] at h
    simp [← h.1, ← h.2]
  | succ k ih =>
    intro i rows parsed h
    simp only [scanRecords] at h
    split at h
    next hnofit =>
      simp only [Except.ok.injEq, Prod.mk.injEq] at h
      have hfits : fitsB buf ds rl i = false := by
        simp [fitsB]
        omega
      have hnil : ((List.range' i (k + 1)).filter
          (fun j => fitsB buf ds rl j && (flagAt buf ds rl j != 0x2a))) = [] := by
        rw [List.filter_eq_nil_iff]
        intro j hj
        rcases List.mem_range'_1.mp hj with ⟨hij, _⟩
        intro habs
        simp only [Bool.and_eq_true] at habs
        rcases habs with ⟨hfj, _⟩
        rw [fitsB_mono hij hfj] at hfits
        cases hfits
      rw [hnil]
      simp [← h.1, ← h.2]
    next hfit =>
      have hoff : ds + i * rl < buf.length := by omega
      simp only [readU8_ok hoff] at h
      have hfits : fitsB buf ds rl i = true := by
        rw [fitsB_true_iff]
        omega
      split at h
      next hdel =>
        rcases ih (i + 1) rows parsed h with ⟨h1, h2⟩
        refine ⟨?_, h2⟩
        rw [List.range'_succ, List.filter_cons]
        have : (fitsB buf ds rl i && (flagAt buf ds rl i != 0x2a)) = false := by
          have : flagAt buf ds rl i = 0x2a := hdel
          simp [this]
        rw [this]
        exact h1
      next hnotdel =>
        cases hdec : decodeRecord buf fields (ds + i * rl + 1) with
        | error e => simp only [hdec] at h; cases h
        | ok cells =>
          simp only [hdec] at h
          cases hrec : scanRecords buf fields ds rl (i + 1) k with
          | error e => simp only [hrec] at h; cases h
          | ok pr =>
            obtain ⟨rows2, parsed2⟩ := pr
            simp only [hrec, Except.ok.injEq, Prod.mk.injEq] at h
            rcases ih (i + 1) rows2 parsed2 hrec with ⟨h1, h2⟩
            have hcond : (fitsB buf ds rl i && (flagAt buf ds rl i != 0x2a)) = true := by
              have hne : flagAt buf ds rl i ≠ 0x2a := hnotdel
              simp [hfits, bne_iff_ne, hne]
            have hrow : joinComma cells = rowAt buf fields ds rl i := by
              rw [rowAt, ← decodeRecord_ok_cells fields _ _ hdec]
            constructor
            · rw [← h.1]
              simp [List.range'_succ, List.filter_cons, hcond, hrow, h1]
            · rw [← h.2, ← h.1]
              simp [h2]

lemma scanRecords_error {buf : List Nat} {fields : List DbfFieldMeta} {ds rl : Nat}
    (hrl : 1 ≤ rl) :
    ∀ (k i : Nat) (e : DbfError),
      scanRecords buf fields ds rl i k = .error e → e = .recordExtendsBeyond := by
  intro k
  induction k with
  | zero => intro i e h; cases h
  | succ k ih =>
    intro i e h
    simp only [scanRecords] at h
    split at h
    next hnofit => cases h
    next hfit =>
      simp only [readU8_ok (by omega : ds + i * rl < buf.length)] at h
      split at h
      next hdel => exact ih (i + 1) e h
      next hnotdel =>
        cases hdec : decodeRecord buf fields (ds + i * rl + 1) with
        | error e2 =>
          simp only [hdec, Except.error.injEq] at h
          rw [← h]
          exact decodeRecord_error_eq _ _ _ hdec
        | ok cells =>
          simp only [hdec] at h
          cases hrec : scanRecords buf fields ds rl (i + 1) k with
          | error e2 =>
            simp only [hrec, Except.error.injEq] at h
            rw [← h]
            exact ih (i + 1) e2 hrec
          | ok pr =>
            obtain ⟨rows2, parsed2⟩ := pr
            simp only [hrec] at h
            cases h

/-! ### Counting -/

lemma length_filter_three (l : List Nat) (p q : Nat → Bool) :
    (l.filter (fun j => p j && q j)).length + (l.filter (fun j => p j && !q j)).length +
      (l.filter (fun j => !p j)).length = l.length := by
  induction l with
  | nil => simp
  | cons x xs ih =>
    cases hp : p x <;> cases hq : q x <;>
      simp [List.filter_cons, hp, hq] <;> omega


/-! ### Inverting a successful conversion -/

lemma sliceB_ok_inv {buf : List Nat} {off len : Nat} {bs : List Nat}
    (h : sliceB buf off len = .ok bs) : bs = sliceD buf off len := by
  simp only [sliceB] at h
  split at h
  · cases h; rfl
  · cases h

lemma convert_ok_inv {buf : List Nat} {r : DbfCsvResult}
    (h : convertDbfToCsv buf = .ok r) :
    32 ≤ buf.length ∧
    r.recordCount = u32le buf 4 ∧
    r.headerLength = u16le buf 8 ∧
    r.recordLength = u16le buf 10 ∧
    r.headerLength ≠ 0 ∧ r.recordLength ≠ 0 ∧
    r.headerLength ≤ buf.length ∧
    parseFields buf r.headerLength 32 [] = .ok r.fields ∧
    r.fields ≠ [] ∧
    r.headerLength + r.recordLength ≤ buf.length ∧
    ∃ dataRows,
      scanRecords buf r.fields r.headerLength r.recordLength 0 r.recordCount =
        .ok (dataRows, r.parsedRecords) ∧
      r.csv = joinCRLF (joinComma (r.fields.map (fun f => escapeCsv f.name)) :: dataRows) := by
  simp only [convertDbfToCsv] at h
  split at h
  · cases h
  next h32 =>
    split at h
    · cases h
    next hz =>
      split at h
      · cases h
      next hbig =>
        cases hpf : parseFields buf (u16le buf 8) 32 [] with
        | error e => simp only [hpf] at h; cases h
        | ok fields =>
          simp only [hpf] at h
          split at h
          · cases h
          next hfne =>
            split at h
            · cases h
            next hpay =>
              cases hscan : scanRecords buf fields (u16le buf 8) (u16le buf 10) 0 (u32le buf 4) with
              | error e => simp only [hscan] at h; cases h
              | ok pr =>
                obtain ⟨dataRows, parsed⟩ := pr
                simp only [hscan, Except.ok.injEq] at h
                subst h
                exact ⟨by omega, rfl, rfl, rfl, fun h0 => hz (Or.inl h0),
                  fun h0 => hz (Or.inr h0),
                  (show u16le buf 8 ≤ buf.length by omega), hpf, hfne,
                  (show u16le buf 8 + u16le buf 10 ≤ buf.length by omega),
                  dataRows, hscan, rfl⟩

/-! ### Claim theorems (record accounting) -/

/-- **C4.** On success, `parsedRecords <= recordCount`, and equals the
declared count minus the in-bounds deleted records minus the trailing
declared indices whose span would exceed the buffer. -/
theorem parsed_records_accounting :
    ∀ (buf : List Nat) (r : DbfCsvResult), convertDbfToCsv buf = .ok r →
      r.parsedRecords ≤ r.recordCount ∧
      r.parsedRecords = r.recordCount
        - deletedCount buf r.headerLength r.recordLength r.recordCount
        - skippedCount buf r.headerLength r.recordLength r.recordCount := by
  intro buf r h
  obtain ⟨h32, hrc, hhl, hrl, hhl0, hrl0, hhlle, hpf, hfne, hpay, dataRows, hscan, hcsv⟩ :=
    convert_ok_inv h
  have hrl1 : 1 ≤ r.recordLength := Nat.one_le_iff_ne_zero.mpr hrl0
  obtain ⟨hrows, hparsed⟩ :=
    scanRecords_ok_spec hrl1 r.recordCount 0 dataRows r.parsedRecords hscan
  rw [hrows, List.length_map, ← List.range_eq_range'] at hparsed
  have hpart := length_filter_three (List.range r.recordCount)
      (fun j => fitsB buf r.headerLength r.recordLength j)
      (fun j => flagAt buf r.headerLength r.recordLength j != 0x2a)
  rw [List.length_range] at hpart
  have hdel : deletedCount buf r.headerLength r.recordLength r.recordCount =
      ((List.range r.recordCount).filter
        (fun j => fitsB buf r.headerLength r.recordLength j &&
          !(flagAt buf r.headerLength r.recordLength j != 0x2a))).length := by
    simp only [deletedCount, bne, Bool.not_not]
  have hskip : skippedCount buf r.headerLength r.recordLength r.recordCount =
      ((List.range r.recordCount).filter
        (fun j => !(fitsB buf r.headerLength r.recordLength j))).length := rfl
  constructor
  · rw [hparsed]
    exact le_trans (List.length_filter_le _ _) (le_of_eq (List.length_range _))
  · rw [hparsed, hdel, hskip]
    omega

/-- **C5.** On success, the emitted data rows are exactly the decoded rows
of the in-bounds records whose deletion flag differs from 0x2A, in index
order: a record flagged 0x2A contributes no row and is not counted, and
scanning continues with the following indices. -/
theorem deleted_records_excluded :
    ∀ (buf : List Nat) (r : DbfCsvResult), convertDbfToCsv buf = .ok r →
      ∃ dataRows,
        scanRecords buf r.fields r.headerLength r.recordLength 0 r.recordCount =
          .ok (dataRows, r.parsedRecords) ∧
        dataRows = (liveIdx buf r.headerLength r.recordLength r.recordCount).map
          (fun j => rowAt buf r.fields r.headerLength r.recordLength j) ∧
        r.parsedRecords = (liveIdx buf r.headerLength r.recordLength r.recordCount).length ∧
        ∀ j ∈ liveIdx buf r.headerLength r.recordLength r.recordCount,
          flagAt buf r.headerLength r.recordLength j ≠ 0x2a := by
  intro buf r h
  obtain ⟨h32, hrc, hhl, hrl, hhl0, hrl0, hhlle, hpf, hfne, hpay, dataRows, hscan, hcsv⟩ :=
    convert_ok_inv h
  have hrl1 : 1 ≤ r.recordLength := Nat.one_le_iff_ne_zero.mpr hrl0
  obtain ⟨hrows, hparsed⟩ :=
    scanRecords_ok_spec hrl1 r.recordCount 0 dataRows r.parsedRecords hscan
  refine ⟨dataRows, hscan, ?_, ?_, ?_⟩
  · rw [hrows, liveIdx, List.range_eq_range']
  · rw [hparsed, hrows, List.length_map, liveIdx, List.range_eq_range']
  · intro j hj
    simp only [liveIdx, List.mem_filter, Bool.and_eq_true, bne_iff_ne] at hj
    exact hj.2.2

/-- **C7 (amended).** A declared record whose full span would pass the end
of the buffer does not itself cause an error: reaching it stops the scan
at once, successfully, with no rows and no count from it onward; and on a
successful conversion, `parsedRecords` counts only the live records
before any such truncated index. -/
theorem truncated_tail_stops_scan :
    (∀ (buf : List Nat) (fields : List DbfFieldMeta) (ds rl i k : Nat),
        buf.length < ds + i * rl + rl →
        scanRecords buf fields ds rl i k = .ok ([], 0)) ∧
    (∀ (buf : List Nat) (r : DbfCsvResult) (j : Nat),
        convertDbfToCsv buf = .ok r → j < r.recordCount →
        fitsB buf r.headerLength r.recordLength j = false →
        r.parsedRecords = ((List.range j).filter
          (fun i => fitsB buf r.headerLength r.recordLength i &&
            (flagAt buf r.headerLength r.recordLength i != 0x2a))).length) := by
  constructor
  · intro buf fields ds rl i k hoob
    cases k with
    | zero => rfl
    | succ k =>
      simp only [scanRecords]
      rw [if_pos (by omega)]
  · intro buf r j h hj hunfit
    obtain ⟨h32, hrc, hhl, hrl, hhl0, hrl0, hhlle, hpf, hfne, hpay, dataRows, hscan, hcsv⟩ :=
      convert_ok_inv h
    have hrl1 : 1 ≤ r.recordLength := Nat.one_le_iff_ne_zero.mpr hrl0
    obtain ⟨hrows, hparsed⟩ :=
      scanRecords_ok_spec hrl1 r.recordCount 0 dataRows r.parsedRecords hscan
    rw [hrows, List.length_map, ← List.range_eq_range'] at hparsed
    have hsplit : r.recordCount = j + (r.recordCount - j) := by omega
    rw [hparsed, hsplit, List.range_add, List.filter_append, List.length_append]
    have htail : ((List.range (r.recordCount - j)).map (fun x => j + x)).filter
        (fun i => fitsB buf r.headerLength r.recordLength i &&
          (flagAt buf r.headerLength r.recordLength i != 0x2a)) = [] := by
      rw [List.filter_eq_nil_iff]
      intro x hx
      rcases List.mem_map.mp hx with ⟨i0, _, hx0⟩
      intro habs
      simp only [Bool.and_eq_true] at habs
      have hfx : fitsB buf r.headerLength r.recordLength x = true := habs.1
      have : fitsB buf r.headerLength r.recordLength j = true :=
        fitsB_mono (by omega) hfx
      rw [this] at hunfit
      cases hunfit
    rw [htail]
    simp

/-! ### Claim theorems (descriptor names) -/

lemma parseFieldsFrom_names {buf : List Nat} {hl : Nat} :
    ∀ (steps off : Nat) (acc fs : List DbfFieldMeta),
      parseFieldsFrom buf hl steps off acc = .ok fs →
      ∃ nf, fs = acc ++ nf ∧
        ∀ j, j < nf.length →
          (nf.getD j ⟨[], 'C', 0, 0⟩).name =
            (if sanitizeText (sliceD buf (off + 32 * j) 11) = []
             then fieldPlaceholder (acc.length + j + 1)
             else sanitizeText (sliceD buf (off + 32 * j) 11)) := by
  intro steps
  induction steps with
  | zero =>
    intro off acc fs h
    simp only [parseFieldsFrom, Except.ok.injEq] at h
    exact ⟨[], by simp [← h], fun j hj => by simp at hj⟩
  | succ steps ih =>
    intro off acc fs h
    simp only [parseFieldsFrom] at h
    split at h
    next hoff =>
      cases hr8 : readU8 buf off with
      | error e => simp only [hr8] at h; cases h
      | ok marker =>
        simp only [hr8] at h
        split at h
        next hm =>
          simp only [Except.ok.injEq] at h
          exact ⟨[], by simp [← h], fun j hj => by simp at hj⟩
        next hm =>
          cases hsl : sliceB buf off 11 with
          | error e => simp only [hsl] at h; cases h
          | ok nameBytes =>
            simp only [hsl] at h
            cases h11 : readU8 buf (off + 11) with
            | error e => simp only [h11] at h; cases h
            | ok ty =>
              simp only [h11] at h
              cases h16 : readU8 buf (off + 16) with
              | error e => simp only [h16] at h; cases h
              | ok len =>
                simp only [h16] at h
                cases h17 : readU8 buf (off + 17) with
                | error e => simp only [h17] at h; cases h
                | ok dec =>
                  simp only [h17] at h
                  obtain ⟨nf, hfs, hnames⟩ := ih (off + 32) _ fs h
                  have hnb : nameBytes = sliceD buf off 11 := sliceB_ok_inv hsl
                  refine ⟨⟨if sanitizeText nameBytes = []
                            then fieldPlaceholder (acc.length + 1)
                            else sanitizeText nameBytes,
                           Char.ofNat ty, len, dec⟩ :: nf, ?_, ?_⟩
                  · rw [hfs, List.append_assoc, List.singleton_append]
                  · intro j hj
                    cases j with
                    | zero =>
                      simp only [List.getD_cons_zero, hnb]
                      simp
                    | succ j =>
                      have hrec := hnames j (by
                        simp only [List.length_cons] at hj
                        omega)
                      rw [List.getD_cons_succ]
                      rw [hrec]
                      have e1 : off + 32 + 32 * j = off + 32 * (j + 1) := by ring
                      have e2 : (acc ++ [(⟨if sanitizeText nameBytes = []
                            then fieldPlaceholder (acc.length + 1)
                            else sanitizeText nameBytes,
                           Char.ofNat ty, len, dec⟩ : DbfFieldMeta)]).length + j + 1 =
                          acc.length + (j + 1) + 1 := by
                        simp [List.length_append]
                        omega
                      rw [e1, e2]
    next hoff =>
      simp only [Except.ok.injEq] at h
      exact ⟨[], by simp [← h], fun j hj => by simp at hj⟩

/-- **C9.** Every collected field descriptor whose 11 stored name bytes
sanitize to the empty string gets the synthetic name `FIELD_n`, `n` its
1-based position in the field list; a descriptor with a non-empty
sanitized name keeps it.  (Descriptor `j` is read at offset `32 + 32*j`.) -/
theorem field_names_placeholder :
    ∀ (buf : List Nat) (r : DbfCsvResult), convertDbfToCsv buf = .ok r →
      ∀ j, j < r.fields.length →
        (r.fields.getD j ⟨[], 'C', 0, 0⟩).name =
          (if sanitizeText (sliceD buf (32 + 32 * j) 11) = []
           then fieldPlaceholder (j + 1)
           else sanitizeText (sliceD buf (32 + 32 * j) 11)) := by
  intro buf r h j hj
  obtain ⟨h32, hrc, hhl, hrl, hhl0, hrl0, hhlle, hpf, hfne, hpay, dataRows, hscan, hcsv⟩ :=
    convert_ok_inv h
  obtain ⟨nf, hfs, hnames⟩ := parseFieldsFrom_names r.headerLength 32 [] r.fields hpf
  rw [List.nil_append] at hfs
  subst hfs
  have := hnames j hj
  simpa using this

/-! ### Claim theorems (error classification) -/

/-- **C1 (amended).** The extends-beyond-file error is raised exactly when
a record's cumulative field cursor would pass the end of the *buffer*; a
cursor exceeding only the record's own declared width, while the reads
still fit inside the buffer, is not an error.  It is also the only error
the per-record decode can raise. -/
theorem decodeRecord_overrun_is_buffer_relative :
    ∀ (buf : List Nat) (fields : List DbfFieldMeta) (off : Nat),
      (∀ e, decodeRecord buf fields off = .error e → e = .recordExtendsBeyond) ∧
      (fields ≠ [] →
        (decodeRecord buf fields off = .error .recordExtendsBeyond ↔
          buf.length < off + sumLen fields)) := by
  intro buf fields off
  refine ⟨fun e he => decodeRecord_error_eq _ _ _ he,
    fun hne => ⟨?_, fun hgt => decodeRecord_error_of_gt _ _ hne hgt⟩⟩
  intro herr
  by_contra hle
  rw [decodeRecord_ok_of_le _ _ (by omega)] at herr
  cases herr

/-- **C2 (amended).** Every failure of `convertDbfToCsv` is one of the six
documented descriptive errors or a range error; a range error escapes only
from field-descriptor parsing (never from the record scan or the header
reads). -/
theorem convert_errors_documented_or_range :
    ∀ (buf : List Nat) (e : DbfError), convertDbfToCsv buf = .error e →
      (e = .bufferTooSmall ∨ e = .malformedHeader ∨ e = .headerLargerThanFile ∨
        e = .noFields ∨ e = .payloadTruncated ∨ e = .recordExtendsBeyond ∨
        e = .rangeError) ∧
      (e = .rangeError →
        32 ≤ buf.length ∧ parseFields buf (u16le buf 8) 32 [] = .error .rangeError) := by
  intro buf e h
  refine ⟨by cases e <;> tauto, ?_⟩
  intro he
  subst he
  simp only [convertDbfToCsv] at h
  split at h
  · simp at h
  next h32 =>
    split at h
    · simp at h
    next hz =>
      split at h
      · simp at h
      next hbig =>
        cases hpf : parseFields buf (u16le buf 8) 32 [] with
        | error e2 =>
          simp only [hpf, Except.error.injEq] at h
          subst h
          exact ⟨by omega, rfl⟩
        | ok fields =>
          simp only [hpf] at h
          split at h
          · simp at h
          next hfne =>
            split at h
            · simp at h
            next hpay =>
              cases hscan : scanRecords buf fields (u16le buf 8) (u16le buf 10) 0 (u32le buf 4) with
              | error e2 =>
                simp only [hscan, Except.error.injEq] at h
                have hrl1 : 1 ≤ u16le buf 10 :=
                  Nat.one_le_iff_ne_zero.mpr (fun h0 => hz (Or.inr h0))
                have := scanRecords_error hrl1 (u32le buf 4) 0 e2 hscan
                rw [h] at this
                simp at this
              | ok pr =>
                obtain ⟨a, b⟩ := pr
                simp only [hscan] at h
                cases h

/-- **C10.** Once the header and descriptor table validate with a nonempty
field list, a buffer without room for one full record after the header
fails with the payload-truncated error, even when the declared record
count is zero; and a successful conversion always had room for one full
record. -/
theorem payload_truncated_even_when_zero_records :
    (∀ (buf : List Nat) (fs : List DbfFieldMeta),
        32 ≤ buf.length →
        ¬(u16le buf 8 = 0 ∨ u16le buf 10 = 0) →
        ¬(u16le buf 8 > buf.length) →
        parseFields buf (u16le buf 8) 32 [] = .ok fs →
        fs ≠ [] →
        buf.length < u16le buf 8 + u16le buf 10 →
        convertDbfToCsv buf = .error .payloadTruncated) ∧
    (∀ (buf : List Nat) (r : DbfCsvResult), convertDbfToCsv buf = .ok r →
        r.headerLength + r.recordLength ≤ buf.length) := by
  constructor
  · intro buf fs h32 hz hbig hpf hfne hpay
    simp only [convertDbfToCsv, if_neg (by omega : ¬ buf.length < 32), if_neg hz,
      if_neg hbig, hpf, if_neg hfne, if_pos (by omega : u16le buf 8 + u16le buf 10 > buf.length)]
  · intro buf r h
    obtain ⟨h32, hrc, hhl, hrl, hhl0, hrl0, hhlle, hpf, hfne, hpay, _⟩ := convert_ok_inv h
    exact hpay

/-! ### Basic lemmas about CSV escaping -/

lemma needsWrapper_iff (v : List Char) :
    needsWrapper v = true ↔ (',' ∈ v ∨ '"' ∈ v ∨ '\n' ∈ v ∨ '\r' ∈ v) := by
  simp [needsWrapper, List.contains, List.elem_iff, or_assoc]

lemma doubleQuotes_of_not_mem {v : List Char} (h : '"' ∉ v) :
    doubleQuotes v = v := by
  induction v with
  | nil => rfl
  | cons c cs ih =>
    have h1 : ¬ c = '"' := fun hc => h (by rw [hc] at *; exact List.mem_cons_self _ _)
    have h2 : '"' ∉ cs := fun hc => h (List.mem_cons_of_mem c hc)
    have h3 := ih h2
    simp only [doubleQuotes, List.flatMap_cons, if_neg h1, List.singleton_append] at h3 ⊢
    rw [h3]

/-- **C6.** A cell is wrapped in double quotes (its first character is a
quote) iff the value contains a comma, a double quote, LF or CR; when
wrapped, the body is the value with every embedded quote doubled; when not
wrapped, the cell is the value unchanged; and the specific value
`He said "hi", ok` is emitted as `"He said ""hi"", ok"`. -/
theorem escapeCsv_wraps_iff_special :
    (∀ v : List Char,
      (((escapeCsv v).head? = some '"') ↔ (',' ∈ v ∨ '"' ∈ v ∨ '\n' ∈ v ∨ '\r' ∈ v)) ∧
      (needsWrapper v = true → escapeCsv v = '"' :: (doubleQuotes v ++ ['"'])) ∧
      (needsWrapper v = false → escapeCsv v = v)) ∧
    escapeCsv ("He said \"hi\", ok".toList) = ("\"He said \"\"hi\"\", ok\"".toList) := by
  refine ⟨fun v => ?_, by decide⟩
  by_cases hw : needsWrapper v = true
  · have hmem := (needsWrapper_iff v).mp hw
    have hesc : escapeCsv v = '"' :: (doubleQuotes v ++ ['"']) := by
      simp [escapeCsv, hw]
    refine ⟨?_, fun _ => hesc, fun hf => absurd hw (by simp [hf])⟩
    rw [hesc]
    simp only [List.head?_cons]
    exact iff_of_true trivial hmem
  · have hwf : needsWrapper v = false := by simpa using hw
    have hmem : ¬(',' ∈ v ∨ '"' ∈ v ∨ '\n' ∈ v ∨ '\r' ∈ v) := fun hm => by
      rw [(needsWrapper_iff v).mpr hm] at hwf
      cases hwf
    have hq : '"' ∉ v := fun hm => hmem (Or.inr (Or.inl hm))
    have hesc : escapeCsv v = v := by
      simp [escapeCsv, hwf, doubleQuotes_of_not_mem hq]
    refine ⟨?_, fun ht => absurd ht hw, fun _ => hesc⟩
    rw [hesc]
    refine iff_of_false ?_ hmem
    cases v with
    | nil => simp
    | cons c cs =>
      simp only [List.head?_cons, Option.some.injEq]
      intro hc
      subst hc
      exact hq (List.mem_cons_self _ _)


/-! ### Round-trip of the RFC-4180 reader over the writer -/

lemma takeWhile_append_all {p : Char → Bool} :
    ∀ {l1 l2 : List Char}, (∀ c ∈ l1, p c = true) →
      (l1 ++ l2).takeWhile p = l1 ++ l2.takeWhile p := by
  intro l1
  induction l1 with
  | nil => intro l2 _; simp
  | cons x xs ih =>
    intro l2 h
    have hx : p x = true := h x (List.mem_cons_self _ _)
    simp only [List.cons_append, List.takeWhile_cons, hx, if_true]
    rw [ih (fun c hc => h c (List.mem_cons_of_mem x hc))]

lemma dropWhile_append_all {p : Char → Bool} :
    ∀ {l1 l2 : List Char}, (∀ c ∈ l1, p c = true) →
      (l1 ++ l2).dropWhile p = l2.dropWhile p := by
  intro l1
  induction l1 with
  | nil => intro l2 _; simp
  | cons x xs ih =>
    intro l2 h
    have hx : p x = true := h x (List.mem_cons_self _ _)
    simp only [List.cons_append, List.dropWhile_cons, hx, if_true]
    exact ih (fun c hc => h c (List.mem_cons_of_mem x hc))

lemma parseQuoted_open_open (t : List Char) :
    (parseQuoted ('"' :: '"' :: t)).val =
      ('"' :: (parseQuoted t).val.1, (parseQuoted t).val.2) := rfl

lemma parseQuoted_lone_quote : (parseQuoted ['"']).val = ([], []) := rfl

lemma parseQuoted_close {c2 : Char} (hc2 : c2 ≠ '"') (t : List Char) :
    (parseQuoted ('"' :: c2 :: t)).val = ([], c2 :: t) := by
  simp [parseQuoted, hc2]

lemma parseQuoted_cons_ne {x : Char} (hx : x ≠ '"') (t : List Char) :
    (parseQuoted (x :: t)).val =
      (x :: (parseQuoted t).val.1, (parseQuoted t).val.2) := by
  conv_lhs => unfold parseQuoted
  rw [if_neg hx]

lemma parseQuoted_double :
    ∀ (v rest : List Char), rest.head? ≠ some '"' →
      (parseQuoted (doubleQuotes v ++ '"' :: rest)).val = (v, rest) := by
  intro v
  induction v with
  | nil =>
    intro rest hq
    simp only [doubleQuotes, List.flatMap_nil, List.nil_append]
    cases rest with
    | nil => exact parseQuoted_lone_quote
    | cons c2 cs =>
      have hc2 : c2 ≠ '"' := fun hc => hq (by rw [hc]; rfl)
      exact parseQuoted_close hc2 cs
  | cons x v' ih =>
    intro rest hq
    by_cases hx : x = '"'
    · subst hx
      have hdq : doubleQuotes ('"' :: v') ++ '"' :: rest =
          '"' :: '"' :: (doubleQuotes v' ++ '"' :: rest) := by
        simp [doubleQuotes]
      rw [hdq, parseQuoted_open_open, ih rest hq]
    · have hdq : doubleQuotes (x :: v') ++ '"' :: rest =
          x :: (doubleQuotes v' ++ '"' :: rest) := by
        simp [doubleQuotes, hx]
      rw [hdq, parseQuoted_cons_ne hx, ih rest hq]

lemma parseCell_escape (v rest : List Char)
    (hrest : rest = [] ∨ (∃ r, rest = ',' :: r) ∨ (∃ r, rest = '\r' :: r)) :
    (parseCell (escapeCsv v ++ rest)).val = (v, rest) := by
  by_cases hw : needsWrapper v = true
  · have hesc : escapeCsv v = '"' :: (doubleQuotes v ++ ['"']) := by
      simp [escapeCsv, hw]
    have hq : rest.head? ≠ some '"' := by
      rcases hrest with h0 | ⟨r, h0⟩ | ⟨r, h0⟩ <;> subst h0 <;> simp
    have hassoc : escapeCsv v ++ rest = '"' :: (doubleQuotes v ++ '"' :: rest) := by
      rw [hesc]
      simp
    rw [hassoc]
    simp only [parseCell, if_pos rfl]
    exact parseQuoted_double v rest hq
  · have hwf : needsWrapper v = false := by simpa using hw
    have hmem : ¬(',' ∈ v ∨ '"' ∈ v ∨ '\n' ∈ v ∨ '\r' ∈ v) := fun hm => by
      rw [(needsWrapper_iff v).mpr hm] at hwf
      cases hwf
    have hesc : escapeCsv v = v := by
      simp [escapeCsv, hwf,
        doubleQuotes_of_not_mem (fun hm => hmem (Or.inr (Or.inl hm)))]
    have hvdelim : ∀ c ∈ v, notDelim c = true := by
      intro c hc
      have h1 : c ≠ ',' := fun hc0 => hmem (Or.inl (hc0 ▸ hc))
      have h2 : c ≠ '\n' := fun hc0 => hmem (Or.inr (Or.inr (Or.inl (hc0 ▸ hc))))
      have h3 : c ≠ '\r' := fun hc0 => hmem (Or.inr (Or.inr (Or.inr (hc0 ▸ hc))))
      simp [notDelim, h1, h2, h3]
    have hrestdrop : rest.takeWhile notDelim = [] ∧ rest.dropWhile notDelim = rest := by
      rcases hrest with h0 | ⟨r, h0⟩ | ⟨r, h0⟩ <;> subst h0 <;> simp [notDelim]
    rw [hesc]
    cases v with
    | nil =>
      rcases hrest with h0 | ⟨r, h0⟩ | ⟨r, h0⟩ <;> subst h0
      · simp [parseCell]
      · simp [parseCell, notDelim]
      · simp [parseCell, notDelim]
    | cons x v2 =>
      have hxq : x ≠ '"' := fun hc =>
        hmem (Or.inr (Or.inl (by rw [← hc]; exact List.mem_cons_self x v2)))
      have htake : (x :: v2 ++ rest).takeWhile notDelim = x :: v2 := by
        rw [takeWhile_append_all hvdelim, hrestdrop.1, List.append_nil]
      have hdrop : (x :: v2 ++ rest).dropWhile notDelim = rest := by
        rw [dropWhile_append_all hvdelim, hrestdrop.2]
      simp only [List.cons_append] at htake hdrop
      simp only [List.cons_append, parseCell, if_neg hxq]
      rw [htake, hdrop]

lemma parseRow_val_nil {s : List Char} (h2 : (parseCell s).val.2 = []) :
    (parseRow s).val = ([(parseCell s).val.1], [], false) := by
  conv_lhs => unfold parseRow
  simp only []
  split
  · rfl
  next c0 r0 heq =>
    rw [h2] at heq
    cases heq

lemma parseRow_val_comma {s r2 : List Char} (h2 : (parseCell s).val.2 = ',' :: r2) :
    (parseRow s).val = ((parseCell s).val.1 :: (parseRow r2).val.1,
      (parseRow r2).val.2.1, (parseRow r2).val.2.2) := by
  conv_lhs => unfold parseRow
  simp only []
  split
  next heq =>
    rw [h2] at heq
    cases heq
  next c0 r0 heq =>
    rw [h2] at heq
    injection heq with hc hr
    subst hc
    subst hr
    rw [if_pos rfl]

lemma parseRow_val_crlf {s r3 : List Char} (h2 : (parseCell s).val.2 = '\r' :: '\n' :: r3) :
    (parseRow s).val = ([(parseCell s).val.1], r3, true) := by
  conv_lhs => unfold parseRow
  simp only []
  split
  next heq =>
    rw [h2] at heq
    cases heq
  next c0 r0 heq =>
    rw [h2] at heq
    injection heq with hc hr
    subst hc
    subst hr
    rw [if_neg (by decide : ¬ ('\r' : Char) = ',')]
    rfl

lemma parseRows_val_false {s : List Char} (h : (parseRow s).val.2.2 = false) :
    parseRows s = [(parseRow s).val.1] := by
  conv_lhs => unfold parseRows
  rw [dif_neg (by simp [h])]

lemma parseRows_val_true {s : List Char} (h : (parseRow s).val.2.2 = true) :
    parseRows s = (parseRow s).val.1 :: parseRows (parseRow s).val.2.1 := by
  conv_lhs => unfold parseRows
  rw [dif_pos h]

lemma parseRow_serialize_end :
    ∀ (cells : List (List Char)), cells ≠ [] →
      (parseRow (joinComma (cells.map escapeCsv))).val = (cells, [], false) := by
  intro cells
  induction cells with
  | nil => intro h; exact absurd rfl h
  | cons c cs ih =>
    intro _
    cases cs with
    | nil =>
      have hj : joinComma ([c].map escapeCsv) = escapeCsv c ++ [] := by
        simp [joinComma, joinSep]
      rw [hj]
      have hpc := parseCell_escape c [] (Or.inl rfl)
      have h2 : (parseCell (escapeCsv c ++ [])).val.2 = [] := by rw [hpc]
      rw [parseRow_val_nil h2, hpc]
    | cons c2 cs2 =>
      have hj : joinComma ((c :: c2 :: cs2).map escapeCsv) =
          escapeCsv c ++ ',' :: joinComma ((c2 :: cs2).map escapeCsv) := by
        simp [joinComma, joinSep]
      rw [hj]
      have hpc := parseCell_escape c (',' :: joinComma ((c2 :: cs2).map escapeCsv))
        (Or.inr (Or.inl ⟨_, rfl⟩))
      have h2 : (parseCell (escapeCsv c ++ ',' :: joinComma ((c2 :: cs2).map escapeCsv))).val.2 =
          ',' :: joinComma ((c2 :: cs2).map escapeCsv) := by rw [hpc]
      rw [parseRow_val_comma h2, hpc, ih (by simp)]

lemma parseRow_serialize_crlf :
    ∀ (cells : List (List Char)) (r : List Char), cells ≠ [] →
      (parseRow (joinComma (cells.map escapeCsv) ++ '\r' :: '\n' :: r)).val =
        (cells, r, true) := by
  intro cells
  induction cells with
  | nil => intro r h; exact absurd rfl h
  | cons c cs ih =>
    intro r _
    cases cs with
    | nil =>
      have hj : joinComma ([c].map escapeCsv) ++ '\r' :: '\n' :: r =
          escapeCsv c ++ '\r' :: '\n' :: r := by
        simp [joinComma, joinSep]
      rw [hj]
      have hpc := parseCell_escape c ('\r' :: '\n' :: r) (Or.inr (Or.inr ⟨_, rfl⟩))
      have h2 : (parseCell (escapeCsv c ++ '\r' :: '\n' :: r)).val.2 =
          '\r' :: '\n' :: r := by rw [hpc]
      rw [parseRow_val_crlf h2, hpc]
    | cons c2 cs2 =>
      have hj : joinComma ((c :: c2 :: cs2).map escapeCsv) ++ '\r' :: '\n' :: r =
          escapeCsv c ++ ',' ::
            (joinComma ((c2 :: cs2).map escapeCsv) ++ '\r' :: '\n' :: r) := by
        simp [joinComma, joinSep]
      rw [hj]
      have hpc := parseCell_escape c
        (',' :: (joinComma ((c2 :: cs2).map escapeCsv) ++ '\r' :: '\n' :: r))
        (Or.inr (Or.inl ⟨_, rfl⟩))
      have h2 : (parseCell (escapeCsv c ++ ',' ::
          (joinComma ((c2 :: cs2).map escapeCsv) ++ '\r' :: '\n' :: r))).val.2 =
          ',' :: (joinComma ((c2 :: cs2).map escapeCsv) ++ '\r' :: '\n' :: r) := by rw [hpc]
      rw [parseRow_val_comma h2, hpc, ih r (by simp)]

lemma parseRows_serialize :
    ∀ (rows : List (List (List Char))), rows ≠ [] → (∀ row ∈ rows, row ≠ []) →
      parseRows (joinCRLF (rows.map (fun row => joinComma (row.map escapeCsv)))) = rows := by
  intro rows
  induction rows with
  | nil => intro h _; exact absurd rfl h
  | cons row rest ih =>
    intro _ hne
    have hrow : row ≠ [] := hne row (List.mem_cons_self _ _)
    cases rest with
    | nil =>
      have hj : joinCRLF ([row].map (fun row => joinComma (row.map escapeCsv))) =
          joinComma (row.map escapeCsv) := by
        simp [joinCRLF, joinSep]
      rw [hj]
      have hpr := parseRow_serialize_end row hrow
      have hflag : (parseRow (joinComma (row.map escapeCsv))).val.2.2 = false := by
        rw [hpr]
      rw [parseRows_val_false hflag, hpr]
    | cons row2 rest2 =>
      have hj : joinCRLF ((row :: row2 :: rest2).map (fun row => joinComma (row.map escapeCsv))) =
          joinComma (row.map escapeCsv) ++ '\r' :: '\n' ::
            joinCRLF ((row2 :: rest2).map (fun row => joinComma (row.map escapeCsv))) := by
        simp [joinCRLF, joinSep]
      rw [hj]
      have hpr := parseRow_serialize_crlf row
        (joinCRLF ((row2 :: rest2).map (fun row => joinComma (row.map escapeCsv)))) hrow
      have hflag : (parseRow (joinComma (row.map escapeCsv) ++ '\r' :: '\n' ::
          joinCRLF ((row2 :: rest2).map (fun row => joinComma (row.map escapeCsv))))).val.2.2 =
          true := by
        rw [hpr]
      rw [parseRows_val_true hflag, hpr]
      rw [ih (by simp) (fun r hr => hne r (List.mem_cons_of_mem row hr))]

/-- **C8.** Reading a successful conversion's CSV text back under the
RFC-4180 rules (CRLF strictly a row separator) yields exactly one header
row of `fields.length` cells followed by exactly `parsedRecords` data
rows. -/
theorem csv_shape_roundtrip :
    ∀ (buf : List Nat) (r : DbfCsvResult), convertDbfToCsv buf = .ok r →
      ∃ hdr rows, parseRows r.csv = hdr :: rows ∧
        hdr.length = r.fields.length ∧ rows.length = r.parsedRecords := by
  intro buf r h
  obtain ⟨h32, hrc, hhl, hrl, hhl0, hrl0, hhlle, hpf, hfne, hpay, dataRows, hscan, hcsv⟩ :=
    convert_ok_inv h
  have hrl1 : 1 ≤ r.recordLength := Nat.one_le_iff_ne_zero.mpr hrl0
  obtain ⟨hrows, hparsed⟩ :=
    scanRecords_ok_spec hrl1 r.recordCount 0 dataRows r.parsedRecords hscan
  refine ⟨r.fields.map (fun f => f.name),
    ((List.range' 0 r.recordCount).filter
        (fun j => fitsB buf r.headerLength r.recordLength j &&
          (flagAt buf r.headerLength r.recordLength j != 0x2a))).map
      (fun j => rawCells buf r.fields (r.headerLength + j * r.recordLength + 1)),
    ?_, by simp, ?_⟩
  · have hstruct : joinComma (r.fields.map (fun f => escapeCsv f.name)) :: dataRows =
        ((r.fields.map (fun f => f.name)) ::
          ((List.range' 0 r.recordCount).filter
              (fun j => fitsB buf r.headerLength r.recordLength j &&
                (flagAt buf r.headerLength r.recordLength j != 0x2a))).map
            (fun j => rawCells buf r.fields (r.headerLength + j * r.recordLength + 1))).map
          (fun row => joinComma (row.map escapeCsv)) := by
      rw [hrows]
      simp [rowAt, List.map_map, Function.comp_def]
    rw [hcsv, hstruct]
    apply parseRows_serialize
    · simp
    · intro row hrow0
      rcases List.mem_cons.mp hrow0 with h0 | h0
      · subst h0
        simpa using hfne
      · rcases List.mem_map.mp h0 with ⟨j, _, hj⟩
        subst hj
        intro habs
        have := rawCells_length buf r.fields (r.headerLength + j * r.recordLength + 1)
        rw [habs] at this
        simp at this
        exact hfne (List.eq_nil_of_length_eq_zero this.symm ▸ rfl)
  · rw [List.length_map, hparsed, hrows, List.length_map]

/-- **C3.** Converting the specific 76-byte synthetic buffer succeeds with
csv `"NAME\r\nHELLO"`, one parsed record of one declared, header length
65, record length 11, and exactly the one field `NAME : C, length 10`. -/
theorem convert_dbf76_ok :
    convertDbfToCsv dbf76 =
      .ok { csv := "NAME\r\nHELLO".toList, recordCount := 1, parsedRecords := 1,
            headerLength := 65, recordLength := 11,
            fields := [{ name := "NAME".toList, type := 'C', length := 10,
                         decimalCount := 0 }] } := by
  rfl

/-- **C1 counterexample.** The field descriptors of `c1buf` declare a total
length (20) exceeding `recordByteLength - 1 = 10`, yet conversion succeeds
(the per-field bound is checked against the end of the buffer, not the
record's own width, and `c1buf` has padding after the record). -/
theorem convert_overrun_within_buffer_succeeds :
    convertDbfToCsv c1buf = .ok c1expected ∧
    (c1expected.fields.map (fun f => f.length)).sum > c1expected.recordLength - 1 := by
  exact ⟨rfl, by decide⟩

/-- **C2 counterexample.** On `c2buf`, conversion fails with a range error
(an out-of-bounds descriptor-name read), which is none of the six
documented descriptive errors. -/
theorem convert_rangeError_escapes :
    convertDbfToCsv c2buf = .error .rangeError ∧
    DbfError.rangeError ≠ .bufferTooSmall ∧
    DbfError.rangeError ≠ .malformedHeader ∧
    DbfError.rangeError ≠ .headerLargerThanFile ∧
    DbfError.rangeError ≠ .noFields ∧
    DbfError.rangeError ≠ .payloadTruncated ∧
    DbfError.rangeError ≠ .recordExtendsBeyond := by
  refine ⟨rfl, by decide, by decide, by decide, by decide, by decide, by decide⟩

/-- **C7 counterexample.** `c7buf` passes header, descriptor and
first-record-fits validation and its declared record at index 1 would
extend past the buffer end, yet conversion does not return successfully:
record 0's field cursor overruns the buffer first, so the whole conversion
fails with the extends-beyond error. -/
theorem convert_truncated_tail_but_error :
    convertDbfToCsv c7buf = .error .recordExtendsBeyond ∧
    u32le c7buf 4 = 2 ∧
    u16le c7buf 8 + 1 * u16le c7buf 10 + u16le c7buf 10 > c7buf.length := by
  refine ⟨rfl, by decide, by decide⟩


/-! ### Witnesses: the claim theorems applied at concrete inputs -/

/-- Witness for the amended C1 theorem at a concrete overrunning field. -/
theorem decodeRecord_overrun_witness :
    decodeRecord [0, 0] [⟨['A'], 'C', 5, 0⟩] 1 = .error .recordExtendsBeyond :=
  ((decodeRecord_overrun_is_buffer_relative [0, 0] [⟨['A'], 'C', 5, 0⟩] 1).2
    (by decide)).mpr (by decide)

/-- Witness for the amended C2 theorem at `c2buf`. -/
theorem convert_errors_documented_or_range_witness :
    32 ≤ c2buf.length ∧ parseFields c2buf (u16le c2buf 8) 32 [] = .error .rangeError :=
  (convert_errors_documented_or_range c2buf .rangeError rfl).2 rfl

/-- Witness for C4 at `dbfDel` (one deleted record of two declared). -/
theorem parsed_records_accounting_witness :
    dbfDelExpected.parsedRecords ≤ dbfDelExpected.recordCount ∧
    dbfDelExpected.parsedRecords = dbfDelExpected.recordCount
      - deletedCount dbfDel dbfDelExpected.headerLength dbfDelExpected.recordLength
          dbfDelExpected.recordCount
      - skippedCount dbfDel dbfDelExpected.headerLength dbfDelExpected.recordLength
          dbfDelExpected.recordCount :=
  parsed_records_accounting dbfDel dbfDelExpected rfl

/-- Witness for C5 at `dbf76`. -/
theorem deleted_records_excluded_witness :
    ∃ dataRows,
      scanRecords dbf76 dbf76Expected.fields dbf76Expected.headerLength
          dbf76Expected.recordLength 0 dbf76Expected.recordCount =
        .ok (dataRows, dbf76Expected.parsedRecords) ∧
      dataRows = (liveIdx dbf76 dbf76Expected.headerLength dbf76Expected.recordLength
          dbf76Expected.recordCount).map
        (fun j => rowAt dbf76 dbf76Expected.fields dbf76Expected.headerLength
          dbf76Expected.recordLength j) ∧
      dbf76Expected.parsedRecords =
        (liveIdx dbf76 dbf76Expected.headerLength dbf76Expected.recordLength
          dbf76Expected.recordCount).length ∧
      ∀ j ∈ liveIdx dbf76 dbf76Expected.headerLength dbf76Expected.recordLength
          dbf76Expected.recordCount,
        flagAt dbf76 dbf76Expected.headerLength dbf76Expected.recordLength j ≠ 0x2a :=
  deleted_records_excluded dbf76 dbf76Expected rfl

/-- Witness for C6 at the value `a,b`. -/
theorem escapeCsv_wraps_iff_special_witness :
    needsWrapper ("a,b".toList) = true ∧
    escapeCsv ("a,b".toList) = '"' :: (doubleQuotes ("a,b".toList) ++ ['"']) :=
  ⟨by decide, (escapeCsv_wraps_iff_special.1 ("a,b".toList)).2.1 (by decide)⟩

/-- Witness for the amended C7 theorem: a truncated record stops an empty
scan without error, and at `dbf76b` the parsed count counts only the live
records before the truncated index 1. -/
theorem truncated_tail_stops_scan_witness :
    scanRecords [] [] 0 1 0 3 = .ok ([], 0) ∧
    dbf76bExpected.parsedRecords = ((List.range 1).filter
      (fun i => fitsB dbf76b dbf76bExpected.headerLength dbf76bExpected.recordLength i &&
        (flagAt dbf76b dbf76bExpected.headerLength dbf76bExpected.recordLength i != 0x2a))).length :=
  ⟨truncated_tail_stops_scan.1 [] [] 0 1 0 3 (by decide),
   truncated_tail_stops_scan.2 dbf76b dbf76bExpected 1 rfl (by decide) (by decide)⟩

/-- Witness for C8 at `dbf76`. -/
theorem csv_shape_roundtrip_witness :
    ∃ hdr rows, parseRows dbf76Expected.csv = hdr :: rows ∧
      hdr.length = dbf76Expected.fields.length ∧
      rows.length = dbf76Expected.parsedRecords :=
  csv_shape_roundtrip dbf76 dbf76Expected rfl

/-- Witness for C9 at `dbf76c` (all-null name bytes give `FIELD_1`). -/
theorem field_names_placeholder_witness :
    (dbf76cExpected.fields.getD 0 ⟨[], 'C', 0, 0⟩).name =
      (if sanitizeText (sliceD dbf76c (32 + 32 * 0) 11) = []
       then fieldPlaceholder (0 + 1)
       else sanitizeText (sliceD dbf76c (32 + 32 * 0) 11)) :=
  field_names_placeholder dbf76c dbf76cExpected rfl 0 (by decide)

/-- Witness for C10 at `dbf65` (declared record count zero, no room for a
record). -/
theorem payload_truncated_even_when_zero_records_witness :
    convertDbfToCsv dbf65 = .error .payloadTruncated :=
  payload_truncated_even_when_zero_records.1 dbf65
    [{ name := "NAME".toList, type := 'C', length := 10, decimalCount := 0 }]
    (by decide) (by decide) (by decide) rfl (by decide) (by decide)

end Dbf
